import Mathlib

/-!
Verification development for the task-orchestration core specified for the
franklu2014/data_science_withairflow repository.  The repository's only source
file is a tutorial notebook (src/Airflow_pipeline.ipynb) that configures an
orchestration engine; the engine itself is not part of the repository, so the
engine's data model and operations below are modelled from the specification's
words.  The notebook's own operator configuration (op1/op2/op3, provide_context,
task3's output filename) is transcribed directly from the notebook.
-/

namespace AirflowCore

/-- Modelled from the spec: the repository has no engine code, so the six
TaskInstance states come from section 3 of the specification. -/
inductive InstState where
  | pending
  | queued
  | running
  | success
  | failed
  | upstreamFailed
deriving DecidableEq

/-- Modelled from the spec: DagRun aggregate states (section 3). -/
inductive RunAggState where
  | pending
  | running
  | success
  | failed
deriving DecidableEq

/-- Modelled from the spec: a TaskDefinition (section 3): identity, upstream
task ids, retry limit and retry delay; the callable it wraps is opaque to the
engine and is passed separately where needed. -/
structure TaskDefinition where
  id : Nat
  upstreams : List Nat
  retryLimit : Nat
  retryDelay : Nat
deriving DecidableEq

/-- Modelled from the spec: a TaskInstance record (section 3): task id, state,
attempt count, last attempt time and last error. -/
structure TaskInstance where
  taskId : Nat
  state : InstState
  attempts : Nat
  lastAttemptTime : Nat
  lastError : Option String
deriving DecidableEq

/-- Modelled from the spec: the RunContext passed to a task callable: the
logical timestamp of the owning DagRun, the task id, and the attempt number. -/
structure RunContext where
  logicalTimestamp : Nat
  taskId : Nat
  attempt : Nat
deriving DecidableEq

/-- Task ids of a definition set. -/
def ids (defs : List TaskDefinition) : List Nat := defs.map TaskDefinition.id

/-- Lookup of a task definition by id. -/
def getTaskDef (defs : List TaskDefinition) (tid : Nat) : Option TaskDefinition :=
  defs.find? (fun d => d.id == tid)

/-- Modelled from the spec: UpstreamsOf(taskId) on a definition set. -/
def upstreamsOf (defs : List TaskDefinition) (tid : Nat) : List Nat :=
  ((getTaskDef defs tid).map TaskDefinition.upstreams).getD []

/-- Retry limit of a task id. -/
def retryLimitOf (defs : List TaskDefinition) (tid : Nat) : Nat :=
  ((getTaskDef defs tid).map TaskDefinition.retryLimit).getD 0

/-- Lookup of a task instance by task id in the per-run store. -/
def getInst (run : List TaskInstance) (tid : Nat) : Option TaskInstance :=
  run.find? (fun i => i.taskId == tid)

/-- Current state of the instance keyed by a task id. -/
def currentState (run : List TaskInstance) (tid : Nat) : Option InstState :=
  (getInst run tid).map TaskInstance.state

/-- Task ids of a run's instance list. -/
def taskIds (run : List TaskInstance) : List Nat := run.map TaskInstance.taskId

/-- Pointwise update of the instances with the given task id. -/
def setInst (run : List TaskInstance) (tid : Nat) (f : TaskInstance → TaskInstance) :
    List TaskInstance :=
  run.map (fun i => if i.taskId == tid then f i else i)

/-- State-only update used by transitions. -/
def setState (s : InstState) (j : TaskInstance) : TaskInstance := { j with state := s }

/-- Failure update: new state, incremented attempt count, attempt time and
recorded error. -/
def failUpd (s : InstState) (t : Nat) (e : String) (j : TaskInstance) : TaskInstance :=
  { j with state := s, attempts := j.attempts + 1, lastAttemptTime := t, lastError := some e }

/-- Modelled from the spec: the Run State Store's error for a failed
compare-and-swap (section 4.3). -/
inductive StoreError where
  | conflictError
deriving DecidableEq

/-- Modelled from the spec: TransitionInstance (section 4.3), a compare-and-swap
style transition that succeeds only if the instance's current state equals
fromState; otherwise it signals ConflictError and the caller keeps the
unchanged store. -/
def transitionInstance (run : List TaskInstance) (tid : Nat)
    (fromState toState : InstState) : Except StoreError (List TaskInstance) :=
  if currentState run tid = some fromState then
    Except.ok (setInst run tid (setState toState))
  else Except.error StoreError.conflictError

/-- Modelled from the spec: ReadyInstances(run) (section 4.3): every instance in
PENDING whose every upstream instance in the same run is SUCCESS. -/
def readyInstances (defs : List TaskDefinition) (run : List TaskInstance) :
    List TaskInstance :=
  run.filter (fun i =>
    i.state == InstState.pending &&
    (upstreamsOf defs i.taskId).all (fun u => currentState run u == some InstState.success))

/-- Modelled from the spec: RecomputeRunState(run) (section 4.3): SUCCESS iff
all instances SUCCESS; FAILED iff any instance is FAILED or UPSTREAM_FAILED;
otherwise RUNNING. -/
def recomputeRunState (run : List TaskInstance) : RunAggState :=
  if run.all (fun i => i.state == InstState.success) then RunAggState.success
  else if run.any (fun i =>
      i.state == InstState.failed || i.state == InstState.upstreamFailed) then
    RunAggState.failed
  else RunAggState.running

/-- Modelled from the spec: crash recovery of one instance on reload
(section 4.3): an instance left in QUEUED or RUNNING is reset to PENDING;
every other instance is kept as stored. -/
def recoverInstance (i : TaskInstance) : TaskInstance :=
  if i.state = InstState.queued ∨ i.state = InstState.running then
    { i with state := InstState.pending }
  else i

/-- Modelled from the spec: reload of a run's instances from the persistent
store after a process restart; no instance is re-created or dropped. -/
def reload (run : List TaskInstance) : List TaskInstance := run.map recoverInstance

/-- Modelled from the spec: the Executor's behaviour on a callable failure
(section 4.4): increments the attempt count, records the last error and the
attempt time; while the attempt count stays within the retry limit the instance
goes back to PENDING, otherwise it goes to FAILED permanently. -/
def onFailure (d : TaskDefinition) (now : Nat) (i : TaskInstance) (e : String) :
    TaskInstance :=
  if i.attempts + 1 ≤ d.retryLimit then failUpd InstState.pending now e i
  else failUpd InstState.failed now e i

/-- Modelled from the spec: a PENDING instance with a pending retry timestamp is
not re-dispatched until retryDelay has elapsed since the last attempt
(section 5). -/
def eligibleForRedispatch (d : TaskDefinition) (i : TaskInstance) (now : Nat) : Prop :=
  i.state = InstState.pending ∧ i.lastAttemptTime + d.retryDelay ≤ now

/-- Modelled from the spec: the dispatch/execute cycle of one instance whose
callable fails on every invocation: each iteration dispatches the PENDING
instance, runs it once (one invocation), and applies the failure policy; the
pair returned is the final instance and the number of invocations made. -/
def alwaysFailLoop (d : TaskDefinition) : Nat → TaskInstance → Nat → TaskInstance × Nat
  | 0, i, invocations => (i, invocations)
  | Nat.succ fuel, i, invocations =>
    if i.state = InstState.pending then
      alwaysFailLoop d fuel (onFailure d 0 (setState InstState.running i) "task error")
        (invocations + 1)
    else (i, invocations)

/-- Modelled from the spec: the Clock's error for a zero (non-positive)
interval (section 4.1). -/
inductive ClockError where
  | configurationError
deriving DecidableEq

/-- Modelled from the spec: DueRuns (section 4.1): every logical timestamp
t = start + k * interval with t at most now and no already-existing DagRun,
ascending (oldest first); a zero interval is a ConfigurationError. -/
def dueRuns (start interval now : Nat) (existing : List Nat) :
    Except ClockError (List Nat) :=
  if interval = 0 then Except.error ClockError.configurationError
  else if now < start then Except.ok []
  else Except.ok
    (((List.range ((now - start) / interval + 1)).map
        (fun k => start + k * interval)).filter (fun t => !(decide (t ∈ existing))))

/-- Modelled from the spec: the Executor's possible outcomes for one dispatch of
one instance (section 4.4). -/
inductive Outcome where
  | notClaimed
  | succeeded
  | failedRetrying (e : String)
  | failedPermanently (e : String)
deriving DecidableEq

/-- Modelled from the spec: Execute (section 4.4): claim PENDING to QUEUED via
the store's compare-and-swap (no-op on ConflictError), then QUEUED to RUNNING,
build a RunContext and invoke the callable; a callable error is caught and
converted into a failure outcome handled by the retry policy, never propagated
past Execute (the function is total and every branch yields an outcome). -/
def execute (defs : List TaskDefinition) (lts now : Nat)
    (c : RunContext → Except String Unit) (run : List TaskInstance) (tid : Nat) :
    Outcome × List TaskInstance :=
  match getInst run tid with
  | none => (Outcome.notClaimed, run)
  | some i =>
    match transitionInstance run tid InstState.pending InstState.queued with
    | Except.error _ => (Outcome.notClaimed, run)
    | Except.ok run1 =>
      match transitionInstance run1 tid InstState.queued InstState.running with
      | Except.error _ => (Outcome.notClaimed, run1)
      | Except.ok run2 =>
        match c (RunContext.mk lts tid (i.attempts + 1)) with
        | Except.ok _ =>
          match transitionInstance run2 tid InstState.running InstState.success with
          | Except.ok run3 => (Outcome.succeeded, run3)
          | Except.error _ => (Outcome.succeeded, run2)
        | Except.error e =>
          if i.attempts + 1 ≤ retryLimitOf defs tid then
            (Outcome.failedRetrying e,
              setInst run2 tid (failUpd InstState.pending now e))
          else
            (Outcome.failedPermanently e,
              setInst run2 tid (failUpd InstState.failed now e))

/-- Modelled from the spec: build-time errors of the Task Graph (sections 4.2
and 7): a cyclic dependency relation is an AcyclicityError; a dependency id
that does not resolve within the definition set is a ConfigurationError. -/
inductive BuildError where
  | acyclicityError
  | configurationError
deriving DecidableEq

/-- Modelled from the spec: the immutable TaskGraph produced by a successful
build (section 4.2). -/
structure TaskGraph where
  tdefs : List TaskDefinition
deriving DecidableEq

/-- Modelled from the spec: RootTasks() of a built graph: the task ids with no
upstream (section 4.2). -/
def TaskGraph.rootTasks (g : TaskGraph) : List Nat :=
  (g.tdefs.filter (fun d => d.upstreams.isEmpty)).map TaskDefinition.id

/-- Whether a remaining task id is still blocked during the topological
traversal: some upstream of it is still in the remaining set. -/
def blocked (defs : List TaskDefinition) (remaining : List Nat) (tid : Nat) : Bool :=
  (upstreamsOf defs tid).any (fun u => decide (u ∈ remaining))

/-- Modelled from the spec: topological traversal of the dependency relation
(section 4.2): each round removes every remaining task none of whose upstreams
is still remaining; the traversal succeeds when everything is removed and fails
when a round makes no progress. -/
def topoElim (defs : List TaskDefinition) : Nat → List Nat → Bool
  | 0, remaining => remaining.isEmpty
  | Nat.succ fuel, remaining =>
    if remaining.isEmpty then true
    else if (remaining.filter (blocked defs remaining)).length < remaining.length then
      topoElim defs fuel (remaining.filter (blocked defs remaining))
    else false

/-- Cycle detection via the topological traversal. -/
def hasCycleB (defs : List TaskDefinition) : Bool :=
  !(topoElim defs defs.length (ids defs))

/-- Whether every dependency id resolves within the definition set. -/
def resolvesB (defs : List TaskDefinition) : Bool :=
  defs.all (fun d => d.upstreams.all (fun u => (ids defs).contains u))

/-- Modelled from the spec: Build(definitions) (section 4.2): fails with
AcyclicityError when the dependency relation has a cycle, with
ConfigurationError when some dependency id does not resolve, and otherwise
returns the immutable graph. -/
def build (defs : List TaskDefinition) : Except BuildError TaskGraph :=
  if hasCycleB defs then Except.error BuildError.acyclicityError
  else if resolvesB defs then Except.ok (TaskGraph.mk defs)
  else Except.error BuildError.configurationError

/-- One step of the dependency relation: task a depends directly on task b. -/
def DependsOn (defs : List TaskDefinition) (a b : Nat) : Prop :=
  ∃ d, d ∈ defs ∧ d.id = a ∧ b ∈ d.upstreams

/-- A cycle in the dependency relation: some task id reaches itself through one
or more dependency edges. -/
def HasCycle (defs : List TaskDefinition) : Prop :=
  ∃ a, Relation.TransGen (DependsOn defs) a a

/-- Acyclicity of the dependency relation of a definition set. -/
def Acyclic (defs : List TaskDefinition) : Prop := ¬ HasCycle defs

/-- Modelled from the spec: the fresh instance a CreateRun materializes for a
task definition (section 4.3): PENDING with no attempts. -/
def initInstance (d : TaskDefinition) : TaskInstance :=
  { taskId := d.id, state := InstState.pending, attempts := 0,
    lastAttemptTime := 0, lastError := none }

/-- Modelled from the spec: the instance set a freshly created DagRun starts
from: one PENDING instance per task definition (section 4.3). -/
def initRun (defs : List TaskDefinition) : List TaskInstance :=
  defs.map initInstance

/-- Modelled from the spec: the engine's per-instance transitions (sections 4.3
to 4.5): dispatch claims a ready PENDING instance (every upstream SUCCESS),
a claimed instance starts RUNNING, a RUNNING instance completes to SUCCESS or
fails (back to PENDING within the retry limit, to FAILED beyond it), and the
Scheduler Loop marks a PENDING instance whose upstream is FAILED as
UPSTREAM_FAILED. -/
inductive EngStep (defs : List TaskDefinition) :
    List TaskInstance → List TaskInstance → Prop where
  | dispatch (run : List TaskInstance) (tid : Nat) (i : TaskInstance) :
      getInst run tid = some i → i.state = InstState.pending →
      (∀ u ∈ upstreamsOf defs tid, currentState run u = some InstState.success) →
      EngStep defs run (setInst run tid (setState InstState.queued))
  | start (run : List TaskInstance) (tid : Nat) (i : TaskInstance) :
      getInst run tid = some i → i.state = InstState.queued →
      EngStep defs run (setInst run tid (setState InstState.running))
  | complete (run : List TaskInstance) (tid : Nat) (i : TaskInstance) :
      getInst run tid = some i → i.state = InstState.running →
      EngStep defs run (setInst run tid (setState InstState.success))
  | failRetry (run : List TaskInstance) (tid : Nat) (i : TaskInstance)
      (t : Nat) (e : String) :
      getInst run tid = some i → i.state = InstState.running →
      i.attempts + 1 ≤ retryLimitOf defs tid →
      EngStep defs run (setInst run tid (failUpd InstState.pending t e))
  | failPerm (run : List TaskInstance) (tid : Nat) (i : TaskInstance)
      (t : Nat) (e : String) :
      getInst run tid = some i → i.state = InstState.running →
      retryLimitOf defs tid < i.attempts + 1 →
      EngStep defs run (setInst run tid (failUpd InstState.failed t e))
  | propagate (run : List TaskInstance) (tid : Nat) (i : TaskInstance) (u : Nat) :
      getInst run tid = some i → i.state = InstState.pending →
      u ∈ upstreamsOf defs tid → currentState run u = some InstState.failed →
      EngStep defs run (setInst run tid (setState InstState.upstreamFailed))

/-- Modelled from the spec: the engine states of one DagRun reachable from its
creation through the engine's transitions. -/
def Reachable (defs : List TaskDefinition) (run : List TaskInstance) : Prop :=
  Relation.ReflTransGen (EngStep defs) (initRun defs) run

/-- Gating invariant: every QUEUED or RUNNING instance has all of its upstream
instances in SUCCESS. -/
def GateInv (defs : List TaskDefinition) (run : List TaskInstance) : Prop :=
  ∀ i ∈ run, (i.state = InstState.queued ∨ i.state = InstState.running) →
    ∀ u ∈ upstreamsOf defs i.taskId, currentState run u = some InstState.success

/-- Exhaustion invariant: every FAILED instance has exhausted its retries. -/
def FailInv (defs : List TaskDefinition) (run : List TaskInstance) : Prop :=
  ∀ i ∈ run, i.state = InstState.failed → retryLimitOf defs i.taskId < i.attempts

end AirflowCore

namespace AirflowNotebook

/-- A PythonOperator construction as written in src/Airflow_pipeline.ipynb:
its task_id, the name of its python_callable, and whether provide_context is
set (absent or commented-out means the Airflow 1.x default, false). -/
structure PythonOperatorDecl where
  task_id : String
  python_callable : String
  provide_context : Bool
deriving DecidableEq

/-- Transcribed from the notebook: op1 = PythonOperator(task_id = 'task1',
python_callable = task1, dag = dag) with no provide_context argument. -/
def op1 : PythonOperatorDecl :=
  { task_id := "task1", python_callable := "task1", provide_context := false }

/-- Transcribed from the notebook: op2 = PythonOperator(task_id = 'task2',
python_callable = task2, dag = dag); its provide_context line is commented out. -/
def op2 : PythonOperatorDecl :=
  { task_id := "task2", python_callable := "task2", provide_context := false }

/-- Transcribed from the notebook: op3 = PythonOperator(task_id = 'task3',
python_callable = task3, provide_context = True, dag = dag). -/
def op3 : PythonOperatorDecl :=
  { task_id := "task3", python_callable := "task3", provide_context := true }

/-- Transcribed from the notebook: the declared parameters of each task
callable; task1 and task2 are declared with no parameters, task3 is declared as
def task3(ds, ts, **kwargs). -/
def declaredParams : String → List String
  | "task3" => ["ds", "ts"]
  | _ => []

/-- Transcribed from the notebook: whether the callable declares a **kwargs
catch-all; only task3 does. -/
def declaresKwargs : String → Bool
  | "task3" => true
  | _ => false

/-- Transcribed from the notebook: the filename task3 saves its chart to,
embedding the scheduler-provided logical timestamp ts. -/
def task3OutputFilename (ts : String) : String := "test_" ++ ts ++ ".png"

end AirflowNotebook

namespace AirflowCore

/-- A concrete sample instance used to instantiate theorems. -/
def sampleInst : TaskInstance :=
  { taskId := 0, state := InstState.pending, attempts := 0,
    lastAttemptTime := 0, lastError := none }

/-- A concrete one-instance run used to instantiate theorems. -/
def sampleRun : List TaskInstance := [sampleInst]

/-- A concrete task definition with retryLimit 2 and retryDelay 5. -/
def sampleDef : TaskDefinition :=
  { id := 0, upstreams := [], retryLimit := 2, retryDelay := 5 }

/-- A concrete acyclic two-task definition set: task 2 depends on task 1. -/
def sampleDefs : List TaskDefinition :=
  [{ id := 1, upstreams := [], retryLimit := 0, retryDelay := 0 },
   { id := 2, upstreams := [1], retryLimit := 0, retryDelay := 0 }]

end AirflowCore

namespace AirflowCore

theorem getInst_taskId {run : List TaskInstance} {tid : Nat} {i : TaskInstance}
    (h : getInst run tid = some i) : i.taskId = tid := by
  have := List.find?_some h
  exact beq_iff_eq.mp this

theorem getInst_mem {run : List TaskInstance} {tid : Nat} {i : TaskInstance}
    (h : getInst run tid = some i) : i ∈ run :=
  List.mem_of_find?_eq_some h

theorem setState_taskId (s : InstState) (j : TaskInstance) :
    (setState s j).taskId = j.taskId := rfl

theorem failUpd_taskId (s : InstState) (t : Nat) (e : String) (j : TaskInstance) :
    (failUpd s t e j).taskId = j.taskId := rfl

theorem recoverInstance_taskId (j : TaskInstance) :
    (recoverInstance j).taskId = j.taskId := by
  unfold recoverInstance
  split <;> rfl

theorem getInst_setInst (run : List TaskInstance) (tid tid' : Nat)
    (f : TaskInstance → TaskInstance) (hf : ∀ j, (f j).taskId = j.taskId) :
    getInst (setInst run tid f) tid' =
      (getInst run tid').map (fun i => if i.taskId == tid then f i else i) := by
  unfold getInst setInst
  rw [List.find?_map]
  have hfun : ((fun i : TaskInstance => i.taskId == tid') ∘
      fun i => if i.taskId == tid then f i else i) =
      fun i : TaskInstance => i.taskId == tid' := by
    funext i
    by_cases h : i.taskId == tid
    · simp [Function.comp, h, hf]
    · simp [Function.comp, h]
  rw [hfun]

theorem getInst_setInst_self {run : List TaskInstance} {tid : Nat} {i : TaskInstance}
    (f : TaskInstance → TaskInstance) (hf : ∀ j, (f j).taskId = j.taskId)
    (h : getInst run tid = some i) :
    getInst (setInst run tid f) tid = some (f i) := by
  rw [getInst_setInst run tid tid f hf, h, Option.map_some']
  rw [if_pos (beq_iff_eq.mpr (getInst_taskId h))]

theorem currentState_setInst_ne {run : List TaskInstance} {tid tid' : Nat}
    (f : TaskInstance → TaskInstance) (hf : ∀ j, (f j).taskId = j.taskId)
    (h : tid' ≠ tid) :
    currentState (setInst run tid f) tid' = currentState run tid' := by
  unfold currentState
  rw [getInst_setInst run tid tid' f hf]
  cases hg : getInst run tid' with
  | none => rfl
  | some j =>
    have hj : j.taskId = tid' := getInst_taskId hg
    have hne : ¬ ((j.taskId == tid) = true) := by
      rw [beq_iff_eq, hj]
      exact h
    simp only [Option.map_some']
    rw [if_neg hne]

theorem taskIds_setInst (run : List TaskInstance) (tid : Nat)
    (f : TaskInstance → TaskInstance) (hf : ∀ j, (f j).taskId = j.taskId) :
    taskIds (setInst run tid f) = taskIds run := by
  unfold taskIds setInst
  rw [List.map_map]
  congr 1
  funext i
  by_cases h : i.taskId == tid
  · simp [Function.comp, h, hf]
  · simp [Function.comp, h]

theorem getInst_of_mem {run : List TaskInstance} (hN : (taskIds run).Nodup) :
    ∀ i ∈ run, getInst run i.taskId = some i := by
  induction run with
  | nil => intro i hi; cases hi
  | cons j t ih =>
    intro i hi
    simp only [taskIds, List.map_cons] at hN
    have hN1 : j.taskId ∉ taskIds t := (List.nodup_cons.mp hN).1
    have hN2 : (taskIds t).Nodup := (List.nodup_cons.mp hN).2
    rcases List.mem_cons.mp hi with rfl | hmem
    · simp [getInst]
    · have hne : ¬ ((j.taskId == i.taskId) = true) := by
        rw [beq_iff_eq]
        intro he
        apply hN1
        rw [he]
        exact List.mem_map_of_mem TaskInstance.taskId hmem
      have hfind : List.find? (fun i1 : TaskInstance => i1.taskId == i.taskId) (j :: t) =
          List.find? (fun i1 : TaskInstance => i1.taskId == i.taskId) t :=
        List.find?_cons_of_neg t hne
      unfold getInst
      rw [hfind]
      exact ih hN2 i hmem

theorem mem_readyInstances (defs : List TaskDefinition) (run : List TaskInstance)
    (i : TaskInstance) :
    i ∈ readyInstances defs run ↔
      i ∈ run ∧ i.state = InstState.pending ∧
      ∀ u ∈ upstreamsOf defs i.taskId, currentState run u = some InstState.success := by
  unfold readyInstances
  rw [List.mem_filter]
  constructor
  · rintro ⟨hm, hb⟩
    rw [Bool.and_eq_true] at hb
    refine ⟨hm, beq_iff_eq.mp hb.1, ?_⟩
    intro u hu
    exact beq_iff_eq.mp (List.all_eq_true.mp hb.2 u hu)
  · rintro ⟨hm, hs, hup⟩
    refine ⟨hm, ?_⟩
    rw [Bool.and_eq_true]
    exact ⟨beq_iff_eq.mpr hs,
      List.all_eq_true.mpr (fun u hu => beq_iff_eq.mpr (hup u hu))⟩

theorem getInst_reload (run : List TaskInstance) (tid : Nat) :
    getInst (reload run) tid = (getInst run tid).map recoverInstance := by
  unfold getInst reload
  rw [List.find?_map]
  have hfun : ((fun i : TaskInstance => i.taskId == tid) ∘ recoverInstance) =
      fun i : TaskInstance => i.taskId == tid := by
    funext i
    simp [Function.comp, recoverInstance_taskId]
  rw [hfun]

theorem recoverInstance_attempts (j : TaskInstance) :
    (recoverInstance j).attempts = j.attempts := by
  unfold recoverInstance
  split <;> rfl

theorem recoverInstance_of_active (j : TaskInstance)
    (h : j.state = InstState.queued ∨ j.state = InstState.running) :
    (recoverInstance j).state = InstState.pending := by
  unfold recoverInstance
  rw [if_pos h]

theorem recoverInstance_of_inactive (j : TaskInstance)
    (hq : j.state ≠ InstState.queued) (hr : j.state ≠ InstState.running) :
    recoverInstance j = j := by
  unfold recoverInstance
  rw [if_neg]
  rintro (h | h)
  · exact hq h
  · exact hr h

theorem alwaysFailLoop_of_notPending (d : TaskDefinition) (j : TaskInstance)
    (h : j.state ≠ InstState.pending) (fuel c : Nat) :
    alwaysFailLoop d fuel j c = (j, c) := by
  cases fuel with
  | zero => rfl
  | succ fuel =>
    unfold alwaysFailLoop
    rw [if_neg h]

theorem onFailure_attempts (d : TaskDefinition) (now : Nat) (i : TaskInstance)
    (e : String) : (onFailure d now i e).attempts = i.attempts + 1 := by
  unfold onFailure
  split <;> rfl

theorem alwaysFailLoop_spec (d : TaskDefinition) :
    ∀ fuel (j : TaskInstance) (c : Nat), j.state = InstState.pending →
      j.attempts ≤ d.retryLimit → d.retryLimit + 1 - j.attempts ≤ fuel →
      (alwaysFailLoop d fuel j c).2 = c + (d.retryLimit + 1 - j.attempts) ∧
      (alwaysFailLoop d fuel j c).1.state = InstState.failed := by
  intro fuel
  induction fuel with
  | zero =>
    intro j c _ ha hf
    omega
  | succ fuel ih =>
    intro j c hp ha hf
    unfold alwaysFailLoop
    rw [if_pos hp]
    by_cases hle : j.attempts + 1 ≤ d.retryLimit
    · have hs2 : (onFailure d 0 (setState InstState.running j) "task error").state =
          InstState.pending := by
        unfold onFailure
        rw [if_pos (show (setState InstState.running j).attempts + 1 ≤ d.retryLimit from hle)]
        rfl
      have ha2 : (onFailure d 0 (setState InstState.running j) "task error").attempts =
          j.attempts + 1 := onFailure_attempts d 0 (setState InstState.running j) "task error"
      have := ih (onFailure d 0 (setState InstState.running j) "task error") (c + 1)
        hs2 (by omega) (by omega)
      rw [ha2] at this
      refine ⟨?_, this.2⟩
      rw [this.1]
      omega
    · have hs2 : (onFailure d 0 (setState InstState.running j) "task error").state =
          InstState.failed := by
        unfold onFailure
        rw [if_neg (show ¬ (setState InstState.running j).attempts + 1 ≤ d.retryLimit from hle)]
        rfl
      rw [alwaysFailLoop_of_notPending d _ (by rw [hs2]; exact fun hc => by cases hc) fuel (c + 1)]
      refine ⟨?_, hs2⟩
      simp only []
      omega

/-- C2: TransitionInstance succeeds exactly when the instance's current state
equals fromState; otherwise it returns ConflictError (the caller keeps the
unchanged store), and of two successive claim attempts PENDING to QUEUED on the
same instance the first succeeds and the second receives ConflictError. -/
theorem c2_transition_cas (run : List TaskInstance) (tid : Nat) (i : TaskInstance)
    (fromState toState : InstState) (hi : getInst run tid = some i) :
    ((∃ run1, transitionInstance run tid fromState toState = Except.ok run1) ↔
      i.state = fromState) ∧
    (i.state ≠ fromState →
      transitionInstance run tid fromState toState =
        Except.error StoreError.conflictError) ∧
    (i.state = InstState.pending →
      ∃ run1,
        transitionInstance run tid InstState.pending InstState.queued = Except.ok run1 ∧
        transitionInstance run1 tid InstState.pending InstState.queued =
          Except.error StoreError.conflictError) := by
  have hcur : currentState run tid = some i.state := by
    unfold currentState
    rw [hi]
    rfl
  refine ⟨⟨?_, ?_⟩, ?_, ?_⟩
  · rintro ⟨run1, h1⟩
    by_cases hs : i.state = fromState
    · exact hs
    · unfold transitionInstance at h1
      rw [if_neg (by rw [hcur]; exact fun hc => hs (Option.some_inj.mp hc))] at h1
      cases h1
  · intro hs
    refine ⟨setInst run tid (setState toState), ?_⟩
    unfold transitionInstance
    rw [if_pos (by rw [hcur, hs])]
  · intro hs
    unfold transitionInstance
    rw [if_neg (by rw [hcur]; exact fun hc => hs (Option.some_inj.mp hc))]
  · intro hp
    refine ⟨setInst run tid (setState InstState.queued), ?_, ?_⟩
    · unfold transitionInstance
      rw [if_pos (by rw [hcur, hp])]
    · have h2 : getInst (setInst run tid (setState InstState.queued)) tid =
          some (setState InstState.queued i) :=
        getInst_setInst_self (setState InstState.queued) (fun _ => rfl) hi
      have hcur2 : currentState (setInst run tid (setState InstState.queued)) tid =
          some InstState.queued := by
        unfold currentState
        rw [h2]
        rfl
      unfold transitionInstance
      rw [if_neg (by rw [hcur2]; exact fun hc => by cases Option.some_inj.mp hc)]

/-- C2 witness: on a concrete one-instance store in PENDING, the
compare-and-swap characterization and the exactly-one-claim property hold. -/
theorem c2_transition_cas_witness :
    ((∃ run1, transitionInstance sampleRun 0 InstState.pending InstState.queued =
        Except.ok run1) ↔ sampleInst.state = InstState.pending) ∧
    (sampleInst.state ≠ InstState.pending →
      transitionInstance sampleRun 0 InstState.pending InstState.queued =
        Except.error StoreError.conflictError) ∧
    (sampleInst.state = InstState.pending →
      ∃ run1,
        transitionInstance sampleRun 0 InstState.pending InstState.queued =
          Except.ok run1 ∧
        transitionInstance run1 0 InstState.pending InstState.queued =
          Except.error StoreError.conflictError) :=
  c2_transition_cas sampleRun 0 sampleInst InstState.pending InstState.queued (by decide)

/-- C3: ReadyInstances(run) contains an instance exactly when it belongs to the
run, is PENDING, every upstream instance of the same run is SUCCESS, and it is
not QUEUED or RUNNING. -/
theorem c3_readyInstances (defs : List TaskDefinition) (run : List TaskInstance)
    (i : TaskInstance) :
    i ∈ readyInstances defs run ↔
      i ∈ run ∧ i.state = InstState.pending ∧
      (∀ u ∈ upstreamsOf defs i.taskId, currentState run u = some InstState.success) ∧
      i.state ≠ InstState.queued ∧ i.state ≠ InstState.running := by
  rw [mem_readyInstances]
  constructor
  · rintro ⟨hm, hs, hup⟩
    refine ⟨hm, hs, hup, ?_, ?_⟩
    · rw [hs]; exact fun hc => by cases hc
    · rw [hs]; exact fun hc => by cases hc
  · rintro ⟨hm, hs, hup, _, _⟩
    exact ⟨hm, hs, hup⟩

/-- C3 witness: on a concrete store, the sample PENDING instance with no
upstreams is ready. -/
theorem c3_readyInstances_witness :
    sampleInst ∈ readyInstances [sampleDef] sampleRun := by
  rw [c3_readyInstances [sampleDef] sampleRun sampleInst]
  refine ⟨by decide, by decide, ?_, by decide, by decide⟩
  intro u hu
  rw [show upstreamsOf [sampleDef] sampleInst.taskId = [] from rfl] at hu
  cases hu

/-- C4: on every callable failure the attempt count is incremented and the last
error recorded; the instance returns to PENDING (and becomes eligible for
re-dispatch exactly once retryDelay has elapsed) while the attempts stay within
retryLimit, and becomes FAILED once they exceed it; an always-failing instance
is invoked exactly retryLimit + 1 times, so exactly 3 times for retryLimit = 2,
before reaching FAILED. -/
theorem c4_retry_policy (d : TaskDefinition) (now : Nat) (i : TaskInstance)
    (e : String) :
    ((onFailure d now i e).attempts = i.attempts + 1) ∧
    ((onFailure d now i e).lastError = some e) ∧
    (i.attempts + 1 ≤ d.retryLimit →
      (onFailure d now i e).state = InstState.pending ∧
      ∀ n2, eligibleForRedispatch d (onFailure d now i e) n2 ↔
        now + d.retryDelay ≤ n2) ∧
    (d.retryLimit < i.attempts + 1 →
      (onFailure d now i e).state = InstState.failed) ∧
    (∀ fuel (j : TaskInstance), j.state = InstState.pending → j.attempts = 0 →
      d.retryLimit + 1 ≤ fuel →
      (alwaysFailLoop d fuel j 0).2 = d.retryLimit + 1 ∧
      (alwaysFailLoop d fuel j 0).1.state = InstState.failed) ∧
    (d.retryLimit = 2 → ∀ j : TaskInstance, j.state = InstState.pending →
      j.attempts = 0 →
      (alwaysFailLoop d 3 j 0).2 = 3 ∧
      (alwaysFailLoop d 3 j 0).1.state = InstState.failed) := by
  refine ⟨onFailure_attempts d now i e, ?_, ?_, ?_, ?_, ?_⟩
  · unfold onFailure
    split <;> rfl
  · intro hle
    constructor
    · unfold onFailure
      rw [if_pos hle]
      rfl
    · intro n2
      unfold eligibleForRedispatch onFailure
      rw [if_pos hle]
      unfold failUpd
      simp
  · intro hgt
    unfold onFailure
    rw [if_neg (by omega)]
    rfl
  · intro fuel j hp ha hf
    have := alwaysFailLoop_spec d fuel j 0 hp (by omega) (by omega)
    rw [ha] at this
    refine ⟨?_, this.2⟩
    rw [this.1]
    omega
  · intro h2 j hp ha
    have := alwaysFailLoop_spec d 3 j 0 hp (by omega) (by omega)
    rw [ha, h2] at this
    exact this

/-- C4 witness: for a concrete definition with retryLimit 2 and a fresh PENDING
instance, the always-failing loop makes exactly 3 invocations and ends FAILED. -/
theorem c4_retry_policy_witness :
    (alwaysFailLoop sampleDef 3 sampleInst 0).2 = 3 ∧
    (alwaysFailLoop sampleDef 3 sampleInst 0).1.state = InstState.failed :=
  (c4_retry_policy sampleDef 0 sampleInst "e").2.2.2.2.2 rfl sampleInst rfl rfl

theorem taskIds_initRun (defs : List TaskDefinition) :
    taskIds (initRun defs) = ids defs := by
  unfold taskIds initRun ids
  rw [List.map_map]
  rfl

theorem step_shape (defs : List TaskDefinition) {b c : List TaskInstance}
    (h : EngStep defs b c) :
    ∃ tid i0 f, getInst b tid = some i0 ∧
      (i0.state = InstState.pending ∨ i0.state = InstState.queued ∨
        i0.state = InstState.running) ∧
      (∀ j, (f j).taskId = j.taskId) ∧ c = setInst b tid f := by
  cases h with
  | dispatch tid i hi hp hup =>
    exact ⟨tid, i, setState InstState.queued, hi, Or.inl hp, fun _ => rfl, rfl⟩
  | start tid i hi hq =>
    exact ⟨tid, i, setState InstState.running, hi, Or.inr (Or.inl hq), fun _ => rfl, rfl⟩
  | complete tid i hi hr =>
    exact ⟨tid, i, setState InstState.success, hi, Or.inr (Or.inr hr), fun _ => rfl, rfl⟩
  | failRetry tid i t e hi hr hle =>
    exact ⟨tid, i, failUpd InstState.pending t e, hi, Or.inr (Or.inr hr), fun _ => rfl, rfl⟩
  | failPerm tid i t e hi hr hgt =>
    exact ⟨tid, i, failUpd InstState.failed t e, hi, Or.inr (Or.inr hr), fun _ => rfl, rfl⟩
  | propagate tid i u hi hp hu hf =>
    exact ⟨tid, i, setState InstState.upstreamFailed, hi, Or.inl hp, fun _ => rfl, rfl⟩

theorem step_taskIds (defs : List TaskDefinition) {b c : List TaskInstance}
    (h : EngStep defs b c) : taskIds c = taskIds b := by
  obtain ⟨tid, i0, f, _, _, hf, rfl⟩ := step_shape defs h
  exact taskIds_setInst b tid f hf

theorem reachable_taskIds (defs : List TaskDefinition) (run : List TaskInstance)
    (h : Reachable defs run) : taskIds run = ids defs := by
  unfold Reachable at h
  induction h with
  | refl => exact taskIds_initRun defs
  | tail _ hstep ih =>
    rw [step_taskIds defs hstep]
    exact ih

theorem currentState_preserved_setInst (b : List TaskInstance) (tid : Nat)
    (f : TaskInstance → TaskInstance) (hf : ∀ j, (f j).taskId = j.taskId)
    {i0 : TaskInstance} (hi0 : getInst b tid = some i0)
    (hns : i0.state ≠ InstState.success) {u : Nat}
    (hs : currentState b u = some InstState.success) :
    currentState (setInst b tid f) u = some InstState.success := by
  by_cases hut : u = tid
  · subst hut
    unfold currentState at hs
    rw [hi0] at hs
    simp only [Option.map_some'] at hs
    exact absurd (Option.some_inj.mp hs) hns
  · rw [currentState_setInst_ne f hf hut]
    exact hs

theorem getInst_preserved_setInst (b : List TaskInstance) (tid : Nat)
    (f : TaskInstance → TaskInstance) (hf : ∀ j, (f j).taskId = j.taskId)
    {i0 : TaskInstance} (hi0 : getInst b tid = some i0)
    {u : Nat} {j : TaskInstance} (hj : getInst b u = some j)
    (hne : j.state ≠ i0.state) :
    getInst (setInst b tid f) u = some j := by
  by_cases hut : u = tid
  · subst hut
    rw [hj] at hi0
    exact absurd (congrArg TaskInstance.state (Option.some_inj.mp hi0)) hne
  · rw [getInst_setInst b tid u f hf, hj]
    have hcond : ¬ ((j.taskId == tid) = true) := by
      rw [beq_iff_eq, getInst_taskId hj]
      exact hut
    simp only [Option.map_some', if_neg hcond]

theorem initRun_inv (defs : List TaskDefinition) :
    GateInv defs (initRun defs) ∧ FailInv defs (initRun defs) := by
  constructor
  · intro i hi hact u hu
    obtain ⟨d, _, hdi⟩ := List.mem_map.mp hi
    subst hdi
    rcases hact with h | h <;> simp [initInstance] at h
  · intro i hi hfail
    obtain ⟨d, _, hdi⟩ := List.mem_map.mp hi
    subst hdi
    simp [initInstance] at hfail

theorem inv_step (defs : List TaskDefinition) {b c : List TaskInstance}
    (hstep : EngStep defs b c) (hNb : (taskIds b).Nodup)
    (h1 : GateInv defs b) (h2 : FailInv defs b) :
    GateInv defs c ∧ FailInv defs c := by
  cases hstep with
  | dispatch tid i0 hi0 hp0 hup0 =>
    have hns : i0.state ≠ InstState.success := by
      rw [hp0]
      intro hc
      cases hc
    constructor
    · intro i2 hi2 hact2 u hu
      obtain ⟨j, hj, hij⟩ := List.mem_map.mp hi2
      by_cases hjt : (j.taskId == tid) = true
      · rw [if_pos hjt] at hij
        subst hij
        rw [setState_taskId, beq_iff_eq.mp hjt] at hu
        exact currentState_preserved_setInst b tid (setState InstState.queued) (fun _ => rfl) hi0 hns (hup0 u hu)
      · rw [if_neg hjt] at hij
        subst hij
        exact currentState_preserved_setInst b tid (setState InstState.queued) (fun _ => rfl) hi0 hns
          (h1 j hj hact2 u hu)
    · intro i2 hi2 hfail2
      obtain ⟨j, hj, hij⟩ := List.mem_map.mp hi2
      by_cases hjt : (j.taskId == tid) = true
      · rw [if_pos hjt] at hij
        subst hij
        cases hfail2
      · rw [if_neg hjt] at hij
        subst hij
        exact h2 j hj hfail2
  | start tid i0 hi0 hq0 =>
    have hns : i0.state ≠ InstState.success := by
      rw [hq0]
      intro hc
      cases hc
    constructor
    · intro i2 hi2 hact2 u hu
      obtain ⟨j, hj, hij⟩ := List.mem_map.mp hi2
      by_cases hjt : (j.taskId == tid) = true
      · rw [if_pos hjt] at hij
        subst hij
        rw [setState_taskId, beq_iff_eq.mp hjt] at hu
        have hup : currentState b u = some InstState.success := by
          apply h1 i0 (getInst_mem hi0) (Or.inl hq0)
          rw [getInst_taskId hi0]
          exact hu
        exact currentState_preserved_setInst b tid (setState InstState.running) (fun _ => rfl) hi0 hns hup
      · rw [if_neg hjt] at hij
        subst hij
        exact currentState_preserved_setInst b tid (setState InstState.running) (fun _ => rfl) hi0 hns
          (h1 j hj hact2 u hu)
    · intro i2 hi2 hfail2
      obtain ⟨j, hj, hij⟩ := List.mem_map.mp hi2
      by_cases hjt : (j.taskId == tid) = true
      · rw [if_pos hjt] at hij
        subst hij
        cases hfail2
      · rw [if_neg hjt] at hij
        subst hij
        exact h2 j hj hfail2
  | complete tid i0 hi0 hr0 =>
    have hns : i0.state ≠ InstState.success := by
      rw [hr0]
      intro hc
      cases hc
    constructor
    · intro i2 hi2 hact2 u hu
      obtain ⟨j, hj, hij⟩ := List.mem_map.mp hi2
      by_cases hjt : (j.taskId == tid) = true
      · rw [if_pos hjt] at hij
        subst hij
        rcases hact2 with h | h <;> cases h
      · rw [if_neg hjt] at hij
        subst hij
        exact currentState_preserved_setInst b tid (setState InstState.success) (fun _ => rfl) hi0 hns
          (h1 j hj hact2 u hu)
    · intro i2 hi2 hfail2
      obtain ⟨j, hj, hij⟩ := List.mem_map.mp hi2
      by_cases hjt : (j.taskId == tid) = true
      · rw [if_pos hjt] at hij
        subst hij
        cases hfail2
      · rw [if_neg hjt] at hij
        subst hij
        exact h2 j hj hfail2
  | failRetry tid i0 t e hi0 hr0 hle =>
    have hns : i0.state ≠ InstState.success := by
      rw [hr0]
      intro hc
      cases hc
    constructor
    · intro i2 hi2 hact2 u hu
      obtain ⟨j, hj, hij⟩ := List.mem_map.mp hi2
      by_cases hjt : (j.taskId == tid) = true
      · rw [if_pos hjt] at hij
        subst hij
        rcases hact2 with h | h <;> cases h
      · rw [if_neg hjt] at hij
        subst hij
        exact currentState_preserved_setInst b tid (failUpd InstState.pending t e) (fun _ => rfl) hi0 hns
          (h1 j hj hact2 u hu)
    · intro i2 hi2 hfail2
      obtain ⟨j, hj, hij⟩ := List.mem_map.mp hi2
      by_cases hjt : (j.taskId == tid) = true
      · rw [if_pos hjt] at hij
        subst hij
        cases hfail2
      · rw [if_neg hjt] at hij
        subst hij
        exact h2 j hj hfail2
  | failPerm tid i0 t e hi0 hr0 hgt =>
    have hns : i0.state ≠ InstState.success := by
      rw [hr0]
      intro hc
      cases hc
    constructor
    · intro i2 hi2 hact2 u hu
      obtain ⟨j, hj, hij⟩ := List.mem_map.mp hi2
      by_cases hjt : (j.taskId == tid) = true
      · rw [if_pos hjt] at hij
        subst hij
        rcases hact2 with h | h <;> cases h
      · rw [if_neg hjt] at hij
        subst hij
        exact currentState_preserved_setInst b tid (failUpd InstState.failed t e) (fun _ => rfl) hi0 hns
          (h1 j hj hact2 u hu)
    · intro i2 hi2 hfail2
      obtain ⟨j, hj, hij⟩ := List.mem_map.mp hi2
      by_cases hjt : (j.taskId == tid) = true
      · rw [if_pos hjt] at hij
        subst hij
        have hj0 : getInst b j.taskId = some j := getInst_of_mem hNb j hj
        rw [beq_iff_eq.mp hjt, hi0] at hj0
        have hij0 : i0 = j := Option.some_inj.mp hj0
        subst hij0
        rw [failUpd_taskId, getInst_taskId hi0]
        exact hgt
      · rw [if_neg hjt] at hij
        subst hij
        exact h2 j hj hfail2
  | propagate tid i0 u0 hi0 hp0 hu0 hf0 =>
    have hns : i0.state ≠ InstState.success := by
      rw [hp0]
      intro hc
      cases hc
    constructor
    · intro i2 hi2 hact2 u hu
      obtain ⟨j, hj, hij⟩ := List.mem_map.mp hi2
      by_cases hjt : (j.taskId == tid) = true
      · rw [if_pos hjt] at hij
        subst hij
        rcases hact2 with h | h <;> cases h
      · rw [if_neg hjt] at hij
        subst hij
        exact currentState_preserved_setInst b tid (setState InstState.upstreamFailed) (fun _ => rfl) hi0 hns
          (h1 j hj hact2 u hu)
    · intro i2 hi2 hfail2
      obtain ⟨j, hj, hij⟩ := List.mem_map.mp hi2
      by_cases hjt : (j.taskId == tid) = true
      · rw [if_pos hjt] at hij
        subst hij
        cases hfail2
      · rw [if_neg hjt] at hij
        subst hij
        exact h2 j hj hfail2

theorem reachable_inv (defs : List TaskDefinition) (hN : (ids defs).Nodup)
    (run : List TaskInstance) (hre : Reachable defs run) :
    GateInv defs run ∧ FailInv defs run := by
  unfold Reachable at hre
  induction hre with
  | refl => exact initRun_inv defs
  | tail hre1 hstep ih =>
    refine inv_step defs hstep ?_ ih.1 ih.2
    rw [reachable_taskIds defs _ hre1]
    exact hN

/-- C1: in every reachable engine state of a run (over a graph with unique task
ids), an instance is RUNNING only if every upstream instance of the same run is
SUCCESS — it never enters RUNNING while an upstream is not SUCCESS; FAILED
always means the retry limit is exhausted (no remaining retries); a PENDING
instance one of whose upstreams is FAILED takes the engine transition to
UPSTREAM_FAILED; and UPSTREAM_FAILED is terminal — no engine step ever changes
it, so it is never retried. -/
theorem c1_gating_invariant (defs : List TaskDefinition) (run : List TaskInstance)
    (hN : (ids defs).Nodup) (hr : Reachable defs run) :
    (∀ i ∈ run, i.state = InstState.running →
      ∀ u ∈ upstreamsOf defs i.taskId, currentState run u = some InstState.success) ∧
    (∀ i ∈ run, i.state = InstState.failed →
      retryLimitOf defs i.taskId < i.attempts) ∧
    (∀ i ∈ run, i.state = InstState.pending →
      ∀ u ∈ upstreamsOf defs i.taskId, currentState run u = some InstState.failed →
      EngStep defs run (setInst run i.taskId (setState InstState.upstreamFailed))) ∧
    (∀ run2, EngStep defs run run2 →
      ∀ i ∈ run, i.state = InstState.upstreamFailed →
      currentState run2 i.taskId = some InstState.upstreamFailed) := by
  have hinv := reachable_inv defs hN run hr
  have hNr : (taskIds run).Nodup := by
    rw [reachable_taskIds defs run hr]
    exact hN
  refine ⟨?_, hinv.2, ?_, ?_⟩
  · intro i hi hrun u hu
    exact hinv.1 i hi (Or.inr hrun) u hu
  · intro i hi hp u hu hf
    exact EngStep.propagate run i.taskId i u (getInst_of_mem hNr i hi) hp hu hf
  · intro run2 hstep i hi huf
    have hj : getInst run i.taskId = some i := getInst_of_mem hNr i hi
    obtain ⟨tid, i0, f, hi0, hact0, hf, rfl⟩ := step_shape defs hstep
    have hgi : getInst (setInst run tid f) i.taskId = some i := by
      apply getInst_preserved_setInst run tid f hf hi0 hj
      rw [huf]
      rcases hact0 with h | h | h <;> rw [h] <;> intro hc <;> cases hc
    unfold currentState
    rw [hgi, Option.map_some', huf]

/-- C1 witness: the invariant bundle holds at a concrete reachable state, the
freshly created run of the sample two-task graph. -/
theorem c1_gating_invariant_witness :
    (∀ i ∈ initRun sampleDefs, i.state = InstState.running →
      ∀ u ∈ upstreamsOf sampleDefs i.taskId,
        currentState (initRun sampleDefs) u = some InstState.success) ∧
    (∀ i ∈ initRun sampleDefs, i.state = InstState.failed →
      retryLimitOf sampleDefs i.taskId < i.attempts) ∧
    (∀ i ∈ initRun sampleDefs, i.state = InstState.pending →
      ∀ u ∈ upstreamsOf sampleDefs i.taskId,
        currentState (initRun sampleDefs) u = some InstState.failed →
        EngStep sampleDefs (initRun sampleDefs)
          (setInst (initRun sampleDefs) i.taskId (setState InstState.upstreamFailed))) ∧
    (∀ run2, EngStep sampleDefs (initRun sampleDefs) run2 →
      ∀ i ∈ initRun sampleDefs, i.state = InstState.upstreamFailed →
      currentState run2 i.taskId = some InstState.upstreamFailed) :=
  c1_gating_invariant sampleDefs (initRun sampleDefs) (by decide)
    Relation.ReflTransGen.refl

theorem getTaskDef_mem {defs : List TaskDefinition} (hN : (ids defs).Nodup) :
    ∀ d ∈ defs, getTaskDef defs d.id = some d := by
  induction defs with
  | nil => intro d hd; cases hd
  | cons d0 t ih =>
    intro d hd
    simp only [ids, List.map_cons] at hN
    have hN1 : d0.id ∉ ids t := (List.nodup_cons.mp hN).1
    have hN2 : (ids t).Nodup := (List.nodup_cons.mp hN).2
    rcases List.mem_cons.mp hd with rfl | hmem
    · simp [getTaskDef]
    · have hne : ¬ ((d0.id == d.id) = true) := by
        rw [beq_iff_eq]
        intro he
        apply hN1
        rw [he]
        exact List.mem_map_of_mem TaskDefinition.id hmem
      have hfind : List.find? (fun d1 : TaskDefinition => d1.id == d.id) (d0 :: t) =
          List.find? (fun d1 : TaskDefinition => d1.id == d.id) t :=
        List.find?_cons_of_neg t hne
      unfold getTaskDef
      rw [hfind]
      exact ih hN2 d hmem

theorem getTaskDef_id {defs : List TaskDefinition} {tid : Nat} {d : TaskDefinition}
    (h : getTaskDef defs tid = some d) : d.id = tid := by
  unfold getTaskDef at h
  have hp := List.find?_some h
  exact beq_iff_eq.mp hp

theorem upstreamsOf_eq {defs : List TaskDefinition} {tid : Nat} {d : TaskDefinition}
    (h : getTaskDef defs tid = some d) : upstreamsOf defs tid = d.upstreams := by
  unfold upstreamsOf
  rw [h, Option.map_some', Option.getD_some]

theorem depends_of_blocked (defs : List TaskDefinition) (remaining : List Nat)
    (x : Nat) (hb : blocked defs remaining x = true) :
    ∃ u ∈ remaining, DependsOn defs x u := by
  unfold blocked at hb
  rw [List.any_eq_true] at hb
  obtain ⟨u, hu, hdec⟩ := hb
  refine ⟨u, of_decide_eq_true hdec, ?_⟩
  unfold upstreamsOf at hu
  cases hg : getTaskDef defs x with
  | none =>
    rw [hg] at hu
    simp at hu
  | some d =>
    rw [hg] at hu
    simp only [Option.map_some', Option.getD_some] at hu
    exact ⟨d, List.mem_of_find?_eq_some hg, getTaskDef_id hg, hu⟩

theorem blocked_of_cycle_edge {defs : List TaskDefinition} (hN : (ids defs).Nodup)
    {remaining : List Nat} {x u : Nat} (hdep : DependsOn defs x u)
    (hu : u ∈ remaining) : blocked defs remaining x = true := by
  obtain ⟨d, hd, hdid, hup⟩ := hdep
  have hg : getTaskDef defs x = some d := by
    rw [← hdid]
    exact getTaskDef_mem hN d hd
  unfold blocked
  rw [upstreamsOf_eq hg, List.any_eq_true]
  exact ⟨u, hup, decide_eq_true hu⟩

theorem cycle_successor (defs : List TaskDefinition) (a : Nat)
    (hc : Relation.TransGen (DependsOn defs) a a) :
    ∀ x, Relation.ReflTransGen (DependsOn defs) a x →
      Relation.ReflTransGen (DependsOn defs) x a →
      ∃ y, DependsOn defs x y ∧
        Relation.ReflTransGen (DependsOn defs) a y ∧
        Relation.ReflTransGen (DependsOn defs) y a := by
  intro x hax hxa
  rcases Relation.ReflTransGen.cases_head hxa with heq | ⟨y, hxy, hya⟩
  · subst heq
    rcases Relation.TransGen.head'_iff.mp hc with ⟨y, hxy, hya⟩
    exact ⟨y, hxy, hax.trans (Relation.ReflTransGen.single hxy), hya⟩
  · exact ⟨y, hxy, hax.trans (Relation.ReflTransGen.single hxy), hya⟩

theorem cycle_of_closed (r : Nat → Nat → Prop) (l : List Nat) (hne : l ≠ [])
    (hstep : ∀ x ∈ l, ∃ y ∈ l, r x y) : ∃ a, Relation.TransGen r a a := by
  classical
  obtain ⟨x0, hx0⟩ := List.exists_mem_of_ne_nil l hne
  have hstep2 : ∀ x, ∃ y, x ∈ l → y ∈ l ∧ r x y := by
    intro x
    by_cases hx : x ∈ l
    · obtain ⟨y, hy, hr⟩ := hstep x hx
      exact ⟨y, fun _ => ⟨hy, hr⟩⟩
    · exact ⟨x0, fun hc => absurd hc hx⟩
  choose f hf using hstep2
  have hgmem : ∀ n, f^[n] x0 ∈ l := by
    intro n
    induction n with
    | zero => exact hx0
    | succ n ihn =>
      rw [Function.iterate_succ_apply' f n x0]
      exact (hf (f^[n] x0) ihn).1
  have hgr : ∀ n, r (f^[n] x0) (f^[n + 1] x0) := by
    intro n
    rw [Function.iterate_succ_apply' f n x0]
    exact (hf (f^[n] x0) (hgmem n)).2
  have hchain : ∀ n m, m < n → Relation.TransGen r (f^[m] x0) (f^[n] x0) := by
    intro n
    induction n with
    | zero => intro m hm; exact absurd hm (Nat.not_lt_zero m)
    | succ n ihn =>
      intro m hm
      rcases Nat.lt_succ_iff_lt_or_eq.mp hm with hm2 | hm2
      · exact (ihn m hm2).tail (hgr n)
      · subst hm2
        exact Relation.TransGen.single (hgr m)
  have hcard : (l.toFinset).card < (Finset.range (l.length + 1)).card := by
    rw [Finset.card_range]
    exact Nat.lt_succ_of_le (List.toFinset_card_le l)
  obtain ⟨m, hm, n, hn, hmn, heq⟩ :=
    Finset.exists_ne_map_eq_of_card_lt_of_maps_to hcard
      (fun n _ => List.mem_toFinset.mpr (hgmem n))
  rcases Nat.lt_or_ge m n with hlt | hge
  · have hcyc := hchain n m hlt
    rw [← heq] at hcyc
    exact ⟨f^[m] x0, hcyc⟩
  · have hlt2 : n < m := Nat.lt_of_le_of_ne hge (fun he => hmn (he ▸ rfl))
    have hcyc := hchain m n hlt2
    rw [heq] at hcyc
    exact ⟨f^[n] x0, hcyc⟩

theorem cycle_topoElim_false (defs : List TaskDefinition) (hN : (ids defs).Nodup)
    (a : Nat) (hc : Relation.TransGen (DependsOn defs) a a) :
    ∀ fuel remaining,
      (∀ x, Relation.ReflTransGen (DependsOn defs) a x →
        Relation.ReflTransGen (DependsOn defs) x a → x ∈ remaining) →
      topoElim defs fuel remaining = false := by
  intro fuel
  induction fuel with
  | zero =>
    intro remaining hsub
    cases hrem : remaining with
    | nil =>
      exact absurd (hsub a Relation.ReflTransGen.refl Relation.ReflTransGen.refl)
        (by rw [hrem]; exact List.not_mem_nil a)
    | cons h t => rfl
  | succ fuel ih =>
    intro remaining hsub
    have hmem : a ∈ remaining :=
      hsub a Relation.ReflTransGen.refl Relation.ReflTransGen.refl
    unfold topoElim
    rw [if_neg (by
      intro hemp
      rw [List.isEmpty_iff] at hemp
      rw [hemp] at hmem
      cases hmem)]
    by_cases hlt : (remaining.filter (blocked defs remaining)).length < remaining.length
    · rw [if_pos hlt]
      apply ih
      intro x hax hxa
      rw [List.mem_filter]
      obtain ⟨y, hxy, hay, hya⟩ := cycle_successor defs a hc x hax hxa
      exact ⟨hsub x hax hxa, blocked_of_cycle_edge hN hxy (hsub y hay hya)⟩
    · rw [if_neg hlt]

theorem topoElim_true_of_acyclic (defs : List TaskDefinition) (hA : Acyclic defs) :
    ∀ fuel remaining, remaining.length ≤ fuel → topoElim defs fuel remaining = true := by
  intro fuel
  induction fuel with
  | zero =>
    intro remaining hlen
    cases remaining with
    | nil => rfl
    | cons h t => simp at hlen
  | succ fuel ih =>
    intro remaining hlen
    unfold topoElim
    by_cases hemp : remaining.isEmpty = true
    · rw [if_pos hemp]
    · rw [if_neg hemp]
      have hne : remaining ≠ [] := fun h => hemp (by rw [h]; rfl)
      have hprog : ∃ x ∈ remaining, blocked defs remaining x = false := by
        by_contra hall
        push_neg at hall
        have hall2 : ∀ x ∈ remaining, ∃ u ∈ remaining, DependsOn defs x u :=
          fun x hx =>
            depends_of_blocked defs remaining x (eq_true_of_ne_false (hall x hx))
        exact hA (cycle_of_closed (DependsOn defs) remaining hne hall2)
      obtain ⟨x0, hx0, hbx0⟩ := hprog
      have hlt : (remaining.filter (blocked defs remaining)).length <
          remaining.length := by
        have hle := List.length_filter_le (blocked defs remaining) remaining
        have hne2 : (remaining.filter (blocked defs remaining)).length ≠
            remaining.length := by
          intro heq
          have hallp := List.filter_length_eq_length.mp heq x0 hx0
          rw [hbx0] at hallp
          cases hallp
        omega
      rw [if_pos hlt]
      exact ih _ (by omega)

/-- C6: on a definition set with unique ids, Build succeeds exactly on the
acyclic, fully-resolving sets — the resulting graph's RootTasks are exactly the
task ids with empty upstream sets — and every set whose dependency relation has
a cycle fails with AcyclicityError. -/
theorem c6_build (defs : List TaskDefinition) (hN : (ids defs).Nodup) :
    (Acyclic defs → resolvesB defs = true →
      build defs = Except.ok (TaskGraph.mk defs) ∧
      ∀ t, t ∈ (TaskGraph.mk defs).rootTasks ↔
        ∃ d ∈ defs, d.id = t ∧ d.upstreams = []) ∧
    (HasCycle defs → build defs = Except.error BuildError.acyclicityError) := by
  constructor
  · intro hA hres
    have htopo : topoElim defs defs.length (ids defs) = true :=
      topoElim_true_of_acyclic defs hA defs.length (ids defs)
        (Nat.le_of_eq (List.length_map defs TaskDefinition.id))
    constructor
    · unfold build hasCycleB
      rw [htopo]
      simp only [Bool.not_true, Bool.false_eq_true, if_false, hres, if_true]
    · intro t
      unfold TaskGraph.rootTasks
      simp only [List.mem_map, List.mem_filter]
      constructor
      · rintro ⟨d, ⟨hd, hemp⟩, rfl⟩
        exact ⟨d, hd, rfl, List.isEmpty_iff.mp hemp⟩
      · rintro ⟨d, hd, rfl, hemp⟩
        exact ⟨d, ⟨hd, by rw [hemp]; rfl⟩, rfl⟩
  · rintro ⟨a, hc⟩
    have htopo : topoElim defs defs.length (ids defs) = false := by
      apply cycle_topoElim_false defs hN a hc
      intro x hax hxa
      obtain ⟨y, hxy, _, _⟩ := cycle_successor defs a hc x hax hxa
      obtain ⟨d, hd, hdid, _⟩ := hxy
      rw [← hdid]
      exact List.mem_map_of_mem TaskDefinition.id hd
    unfold build hasCycleB
    rw [htopo]
    rfl

theorem sampleDefs_acyclic : Acyclic sampleDefs := by
  rintro ⟨a, hc⟩
  have hdesc : ∀ x y, DependsOn sampleDefs x y → y < x := by
    rintro x y ⟨d, hd, hid, hup⟩
    rcases List.mem_cons.mp hd with rfl | hd2
    · cases hup
    · rcases List.mem_singleton.mp hd2 with rfl
      have hy : y = 1 := List.mem_singleton.mp hup
      subst hy
      rw [← hid]
      decide
  have hgt : Relation.TransGen (fun x y : Nat => y < x) a a :=
    Relation.TransGen.mono hdesc hc
  have htrans : Transitive (fun x y : Nat => y < x) :=
    fun _ _ _ hxy hyz => lt_trans hyz hxy
  rw [Relation.transGen_eq_self htrans] at hgt
  exact lt_irrefl a hgt

/-- C6 witness: the concrete acyclic two-task set builds successfully and its
root tasks are exactly the tasks with no upstream. -/
theorem c6_build_witness :
    build sampleDefs = Except.ok (TaskGraph.mk sampleDefs) ∧
    ∀ t, t ∈ (TaskGraph.mk sampleDefs).rootTasks ↔
      ∃ d ∈ sampleDefs, d.id = t ∧ d.upstreams = [] :=
  (c6_build sampleDefs (by decide)).1 sampleDefs_acyclic (by decide)

/-- C5: for a positive interval, DueRuns returns exactly the logical timestamps
start + k * interval that are at most now and have no existing DagRun, in
ascending order; and with no existing runs and now between start + 3 * interval
(inclusive) and start + 4 * interval (exclusive) — in particular at
now = start + 3.5 * interval — it returns exactly the four timestamps start,
start + interval, start + 2 * interval, start + 3 * interval in that order. -/
theorem c5_dueRuns (start interval now : Nat) (existing : List Nat)
    (hI : 0 < interval) :
    (∃ l, dueRuns start interval now existing = Except.ok l ∧
      (∀ t, t ∈ l ↔ (∃ k, t = start + k * interval) ∧ t ≤ now ∧ t ∉ existing) ∧
      l.Pairwise (· < ·)) ∧
    (start + 3 * interval ≤ now → now < start + 4 * interval →
      dueRuns start interval now [] = Except.ok
        [start, start + interval, start + 2 * interval, start + 3 * interval]) := by
  have hIne : ¬ interval = 0 := by omega
  constructor
  · unfold dueRuns
    rw [if_neg hIne]
    by_cases hns : now < start
    · rw [if_pos hns]
      refine ⟨[], rfl, ?_, List.Pairwise.nil⟩
      intro t
      constructor
      · intro ht
        cases ht
      · rintro ⟨⟨k, rfl⟩, hle, _⟩
        exfalso
        have hg : start ≤ start + k * interval := Nat.le_add_right _ _
        omega
    · rw [if_neg hns]
      refine ⟨_, rfl, ?_, ?_⟩
      · intro t
        rw [List.mem_filter, List.mem_map]
        constructor
        · rintro ⟨⟨k, hk, rfl⟩, hnc⟩
          rw [List.mem_range, Nat.lt_succ_iff, Nat.le_div_iff_mul_le hI] at hk
          refine ⟨⟨k, rfl⟩, by omega, ?_⟩
          intro hmem
          rw [Bool.not_eq_true', decide_eq_false_iff_not] at hnc
          exact hnc hmem
        · rintro ⟨⟨k, rfl⟩, hle, hnm⟩
          refine ⟨⟨k, ?_, rfl⟩, ?_⟩
          · rw [List.mem_range, Nat.lt_succ_iff, Nat.le_div_iff_mul_le hI]
            omega
          · rw [Bool.not_eq_true', decide_eq_false_iff_not]
            exact hnm
      · apply List.Pairwise.filter
        rw [List.pairwise_map]
        exact (List.pairwise_lt_range _).imp
          (fun hab => Nat.add_lt_add_left ((Nat.mul_lt_mul_right hI).mpr hab) start)
  · intro h3 h4
    unfold dueRuns
    rw [if_neg hIne, if_neg (by omega : ¬ now < start)]
    have hdiv : (now - start) / interval = 3 := by
      apply Nat.div_eq_of_lt_le
      · omega
      · omega
    rw [hdiv]
    rw [show List.range (3 + 1) = [0, 1, 2, 3] from rfl]
    simp [List.filter, Nat.zero_mul, Nat.one_mul, Nat.add_zero]

/-- C5 witness: with start 0, interval 2, no existing runs and now 7 (that is,
start + 3.5 * interval), DueRuns returns exactly the four timestamps
0, 2, 4, 6 ascending. -/
theorem c5_dueRuns_witness :
    dueRuns 0 2 7 [] = Except.ok [0, 0 + 2, 0 + 2 * 2, 0 + 3 * 2] :=
  (c5_dueRuns 0 2 7 [] (by decide)).2 (by decide) (by decide)

/-- C7: Execute is a total function into outcomes: with the claimed instance in
PENDING, every callable behaviour yields an outcome pair, every other
instance's state is left untouched (no other execution is disturbed), and a
callable error is caught and converted into a failure outcome of this instance
(recorded in its lastError) handled by the retry policy, never propagated. -/
theorem c7_execute_containment (defs : List TaskDefinition) (lts now : Nat)
    (c : RunContext → Except String Unit) (run : List TaskInstance) (tid : Nat)
    (i : TaskInstance) (hi : getInst run tid = some i)
    (hp : i.state = InstState.pending) :
    (∃ out run9, execute defs lts now c run tid = (out, run9)) ∧
    (∀ t, t ≠ tid →
      currentState (execute defs lts now c run tid).2 t = currentState run t) ∧
    (∀ e, c (RunContext.mk lts tid (i.attempts + 1)) = Except.error e →
      (execute defs lts now c run tid).1 =
        (if i.attempts + 1 ≤ retryLimitOf defs tid then Outcome.failedRetrying e
         else Outcome.failedPermanently e) ∧
      ∃ j, getInst (execute defs lts now c run tid).2 tid = some j ∧
        j.lastError = some e ∧ j.attempts = i.attempts + 1 ∧
        j.state = (if i.attempts + 1 ≤ retryLimitOf defs tid then InstState.pending
                   else InstState.failed)) := by
  have hcur : currentState run tid = some i.state := by
    unfold currentState
    rw [hi]
    rfl
  have h1 : transitionInstance run tid InstState.pending InstState.queued =
      Except.ok (setInst run tid (setState InstState.queued)) := by
    unfold transitionInstance
    rw [if_pos (by rw [hcur, hp])]
  set run1 := setInst run tid (setState InstState.queued) with hrun1
  have hgi1 : getInst run1 tid = some (setState InstState.queued i) :=
    getInst_setInst_self (setState InstState.queued) (fun _ => rfl) hi
  have hcur1 : currentState run1 tid = some InstState.queued := by
    unfold currentState
    rw [hgi1]
    rfl
  have h2 : transitionInstance run1 tid InstState.queued InstState.running =
      Except.ok (setInst run1 tid (setState InstState.running)) := by
    unfold transitionInstance
    rw [if_pos (by rw [hcur1])]
  set run2 := setInst run1 tid (setState InstState.running) with hrun2
  have hgi2 : getInst run2 tid =
      some (setState InstState.running (setState InstState.queued i)) :=
    getInst_setInst_self (setState InstState.running) (fun _ => rfl) hgi1
  have hcur2 : currentState run2 tid = some InstState.running := by
    unfold currentState
    rw [hgi2]
    rfl
  have h3 : transitionInstance run2 tid InstState.running InstState.success =
      Except.ok (setInst run2 tid (setState InstState.success)) := by
    unfold transitionInstance
    rw [if_pos (by rw [hcur2])]
  have hexec : execute defs lts now c run tid =
      (match c (RunContext.mk lts tid (i.attempts + 1)) with
       | Except.ok _ => (Outcome.succeeded, setInst run2 tid (setState InstState.success))
       | Except.error e =>
         if i.attempts + 1 ≤ retryLimitOf defs tid then
           (Outcome.failedRetrying e, setInst run2 tid (failUpd InstState.pending now e))
         else
           (Outcome.failedPermanently e,
             setInst run2 tid (failUpd InstState.failed now e))) := by
    unfold execute
    simp only [hi, h1]
    simp only [h2]
    simp only [h3]
  have hframe2 : ∀ t, t ≠ tid → currentState run2 t = currentState run t := by
    intro t ht
    rw [hrun2, currentState_setInst_ne (setState InstState.running) (fun _ => rfl) ht,
      hrun1, currentState_setInst_ne (setState InstState.queued) (fun _ => rfl) ht]
  refine ⟨?_, ?_, ?_⟩
  · exact ⟨(execute defs lts now c run tid).1, (execute defs lts now c run tid).2, rfl⟩
  · intro t ht
    rw [hexec]
    cases hc : c (RunContext.mk lts tid (i.attempts + 1)) with
    | ok _ =>
      simp only []
      rw [currentState_setInst_ne (setState InstState.success) (fun _ => rfl) ht]
      exact hframe2 t ht
    | error e =>
      simp only []
      by_cases hle : i.attempts + 1 ≤ retryLimitOf defs tid
      · rw [if_pos hle]
        simp only []
        rw [currentState_setInst_ne (failUpd InstState.pending now e) (fun _ => rfl) ht]
        exact hframe2 t ht
      · rw [if_neg hle]
        simp only []
        rw [currentState_setInst_ne (failUpd InstState.failed now e) (fun _ => rfl) ht]
        exact hframe2 t ht
  · intro e he
    rw [hexec, he]
    simp only []
    by_cases hle : i.attempts + 1 ≤ retryLimitOf defs tid
    · rw [if_pos hle, if_pos hle, if_pos hle]
      refine ⟨rfl, failUpd InstState.pending now e
        (setState InstState.running (setState InstState.queued i)), ?_, rfl, rfl, rfl⟩
      exact getInst_setInst_self (failUpd InstState.pending now e) (fun _ => rfl) hgi2
    · rw [if_neg hle, if_neg hle, if_neg hle]
      refine ⟨rfl, failUpd InstState.failed now e
        (setState InstState.running (setState InstState.queued i)), ?_, rfl, rfl, rfl⟩
      exact getInst_setInst_self (failUpd InstState.failed now e) (fun _ => rfl) hgi2

/-- C7 witness: a concrete always-erroring callable on the sample store yields
the converted failure outcome and leaves the (empty set of) other instances
untouched. -/
theorem c7_execute_containment_witness :
    (∃ out run9,
      execute [sampleDef] 0 0 (fun _ => Except.error "boom") sampleRun 0 = (out, run9)) ∧
    (∀ t, t ≠ 0 →
      currentState (execute [sampleDef] 0 0 (fun _ => Except.error "boom") sampleRun 0).2 t =
        currentState sampleRun t) ∧
    (∀ e, (fun _ : RunContext => (Except.error "boom" : Except String Unit))
        (RunContext.mk 0 0 (sampleInst.attempts + 1)) = Except.error e →
      (execute [sampleDef] 0 0 (fun _ => Except.error "boom") sampleRun 0).1 =
        (if sampleInst.attempts + 1 ≤ retryLimitOf [sampleDef] 0 then
          Outcome.failedRetrying e
         else Outcome.failedPermanently e) ∧
      ∃ j, getInst (execute [sampleDef] 0 0 (fun _ => Except.error "boom") sampleRun 0).2 0 =
          some j ∧
        j.lastError = some e ∧ j.attempts = sampleInst.attempts + 1 ∧
        j.state = (if sampleInst.attempts + 1 ≤ retryLimitOf [sampleDef] 0 then
          InstState.pending else InstState.failed)) :=
  c7_execute_containment [sampleDef] 0 0 (fun _ => Except.error "boom") sampleRun 0
    sampleInst (by decide) rfl

/-- C8: RecomputeRunState derives SUCCESS exactly when every instance is
SUCCESS, FAILED exactly when some instance is FAILED or UPSTREAM_FAILED, and
RUNNING in every other case. -/
theorem c8_recomputeRunState (run : List TaskInstance) :
    (recomputeRunState run = RunAggState.success ↔
      ∀ i ∈ run, i.state = InstState.success) ∧
    (recomputeRunState run = RunAggState.failed ↔
      ∃ i ∈ run, i.state = InstState.failed ∨ i.state = InstState.upstreamFailed) ∧
    ((¬ ∀ i ∈ run, i.state = InstState.success) →
      (¬ ∃ i ∈ run, i.state = InstState.failed ∨ i.state = InstState.upstreamFailed) →
      recomputeRunState run = RunAggState.running) := by
  have hall : (run.all (fun i => i.state == InstState.success) = true) ↔
      ∀ i ∈ run, i.state = InstState.success := by
    rw [List.all_eq_true]
    exact ⟨fun h i hi => beq_iff_eq.mp (h i hi), fun h i hi => beq_iff_eq.mpr (h i hi)⟩
  have hany : (run.any (fun i =>
      i.state == InstState.failed || i.state == InstState.upstreamFailed) = true) ↔
      ∃ i ∈ run, i.state = InstState.failed ∨ i.state = InstState.upstreamFailed := by
    rw [List.any_eq_true]
    constructor
    · rintro ⟨i, hi, hb⟩
      rw [Bool.or_eq_true] at hb
      exact ⟨i, hi, hb.imp beq_iff_eq.mp beq_iff_eq.mp⟩
    · rintro ⟨i, hi, hb⟩
      refine ⟨i, hi, ?_⟩
      rw [Bool.or_eq_true]
      exact hb.imp beq_iff_eq.mpr beq_iff_eq.mpr
  unfold recomputeRunState
  by_cases h1 : run.all (fun i => i.state == InstState.success) = true
  · rw [if_pos h1]
    refine ⟨⟨fun _ => hall.mp h1, fun _ => rfl⟩, ⟨?_, ?_⟩,
      fun hna _ => absurd (hall.mp h1) hna⟩
    · intro hc
      cases hc
    · rintro ⟨i, hi, hb⟩
      have hsucc := hall.mp h1 i hi
      rcases hb with hb | hb <;> rw [hsucc] at hb <;> exact absurd hb (by decide)
  · rw [if_neg h1]
    by_cases h2 : run.any (fun i =>
        i.state == InstState.failed || i.state == InstState.upstreamFailed) = true
    · rw [if_pos h2]
      refine ⟨⟨?_, fun hs => absurd (hall.mpr hs) h1⟩,
        ⟨fun _ => hany.mp h2, fun _ => rfl⟩,
        fun _ hne => absurd (hany.mp h2) hne⟩
      intro hc
      cases hc
    · rw [if_neg h2]
      refine ⟨⟨?_, fun hs => absurd (hall.mpr hs) h1⟩,
        ⟨?_, fun he => absurd (hany.mpr he) h2⟩,
        fun _ _ => rfl⟩
      · intro hc
        cases hc
      · intro hc
        cases hc

/-- C8 witness: on a concrete one-instance run in PENDING, the aggregate state
is RUNNING, derived through the characterization. -/
theorem c8_recomputeRunState_witness :
    recomputeRunState sampleRun = RunAggState.running :=
  (c8_recomputeRunState sampleRun).2.2 (by decide) (by decide)

/-- C9: after a restart, reload resets exactly the QUEUED and RUNNING instances
to PENDING, keeps every other instance (state, attempt count) as stored without
re-creating or dropping any instance, and a reset instance whose upstreams are
SUCCESS is again ready for dispatch. -/
theorem c9_restart_recovery (defs : List TaskDefinition) (run : List TaskInstance) :
    taskIds (reload run) = taskIds run ∧
    (∀ tid j, getInst run tid = some j →
      getInst (reload run) tid = some (recoverInstance j) ∧
      (recoverInstance j).attempts = j.attempts ∧
      ((j.state = InstState.queued ∨ j.state = InstState.running) →
        (recoverInstance j).state = InstState.pending) ∧
      (j.state ≠ InstState.queued → j.state ≠ InstState.running →
        recoverInstance j = j)) ∧
    (∀ i ∈ run, i.state = InstState.running →
      (∀ u ∈ upstreamsOf defs i.taskId, currentState run u = some InstState.success) →
      recoverInstance i ∈ readyInstances defs (reload run)) := by
  refine ⟨?_, ?_, ?_⟩
  · unfold taskIds reload
    rw [List.map_map]
    congr 1
    funext j
    exact recoverInstance_taskId j
  · intro tid j hj
    refine ⟨?_, recoverInstance_attempts j, recoverInstance_of_active j,
      recoverInstance_of_inactive j⟩
    rw [getInst_reload, hj]
    rfl
  · intro i hm hrun hup
    rw [mem_readyInstances]
    refine ⟨List.mem_map_of_mem recoverInstance hm,
      recoverInstance_of_active i (Or.inr hrun), ?_⟩
    intro u hu
    rw [recoverInstance_taskId] at hu
    have hs := hup u hu
    unfold currentState at hs ⊢
    rw [getInst_reload]
    cases hg : getInst run u with
    | none => rw [hg] at hs; simp at hs
    | some k =>
      rw [hg] at hs
      simp only [Option.map_some'] at hs
      have hk : k.state = InstState.success := Option.some_inj.mp hs
      rw [Option.map_some',
        recoverInstance_of_inactive k (by rw [hk]; exact fun hc => by cases hc)
          (by rw [hk]; exact fun hc => by cases hc),
        Option.map_some', hk]

/-- C9 witness: a concrete RUNNING instance with no upstreams is reset to
PENDING by reload and is again ready for dispatch. -/
theorem c9_restart_recovery_witness :
    (∀ tid j, getInst [setState InstState.running sampleInst] tid = some j →
      getInst (reload [setState InstState.running sampleInst]) tid =
        some (recoverInstance j) ∧
      (recoverInstance j).attempts = j.attempts ∧
      ((j.state = InstState.queued ∨ j.state = InstState.running) →
        (recoverInstance j).state = InstState.pending) ∧
      (j.state ≠ InstState.queued → j.state ≠ InstState.running →
        recoverInstance j = j)) ∧
    recoverInstance (setState InstState.running sampleInst) ∈
      readyInstances [sampleDef] (reload [setState InstState.running sampleInst]) :=
  ⟨(c9_restart_recovery [sampleDef] [setState InstState.running sampleInst]).2.1,
   (c9_restart_recovery [sampleDef] [setState InstState.running sampleInst]).2.2
     (setState InstState.running sampleInst) (by decide) rfl
     (fun u hu => by cases hu)⟩

end AirflowCore

namespace AirflowNotebook

/-- C10: in the notebook's pipeline only the third task receives
scheduler-provided run context: op3 is constructed with provide_context = True
and its callable task3 declares the context parameters (ds, ts, **kwargs) and
embeds the logical timestamp ts in its output filename, while op1 and op2
invoke task1 and task2 with no context arguments (op2's provide_context is
commented out) — context passing is opt-in per task, not uniform. -/
theorem c10_context_optin :
    op3.provide_context = true ∧
    op1.provide_context = false ∧
    op2.provide_context = false ∧
    declaredParams op3.python_callable = ["ds", "ts"] ∧
    declaresKwargs op3.python_callable = true ∧
    declaredParams op1.python_callable = [] ∧
    declaredParams op2.python_callable = [] ∧
    (∀ ts, task3OutputFilename ts = "test_" ++ ts ++ ".png") ∧
    op1.provide_context ≠ op3.provide_context :=
  ⟨rfl, rfl, rfl, rfl, rfl, rfl, rfl, fun _ => rfl, by decide⟩

end AirflowNotebook
